import Mathlib

/-
  Verification of the fitter extraction engine against its specification.

  The definitions below are shallow embeddings of the Go sources:
  - pkg/builder arrayField (part_002): ToJson, Raw, IsEmpty;
  - pkg/connectors api.go (part_000): apiConnector.get;
  - pkg/connectors playwright.go (part_001): getFromPlaywright and the
    one-shot install lock;
  - pkg/references (not in the source tree: modelled from the spec).

  Machine integers of the Go code do not overflow in any modelled path, so
  counters are Nat. Fallible Go calls are modelled with Option or Except,
  driven by explicit oracle records that decide the outcome of each
  external effect, which keeps every definition executable.
-/

namespace Fitter

/-- Structural domain of parsed JSON values, used to state that the output
of ToJson re-parses to the value of Raw. Go yields nil, bool, float64,
string, slices and maps from json unmarshalling; this type is the
structural skeleton of those values, with numeric literals kept as text. -/
inductive RawVal where
  | null : RawVal
  | boolean : Bool → RawVal
  | num : String → RawVal
  | str : String → RawVal
  | arr : List RawVal → RawVal
  | obj : List (String × RawVal) → RawVal
deriving Repr

/-- Decode of a single escaped character inside a JSON string literal. -/
def unescape (c : Char) : Option Char :=
  if c = '"' then some '"'
  else if c = '\\' then some '\\'
  else if c = 'n' then some '\n'
  else if c = 't' then some '\t'
  else if c = '/' then some '/'
  else none

/-- Parse the body of a JSON string literal, after the opening quote,
up to and including the closing quote. -/
def parseStringLit : List Char → Option (String × List Char)
  | [] => none
  | '"' :: rest => some ("", rest)
  | '\\' :: rest =>
    match rest with
    | [] => none
    | c :: rest2 =>
      match unescape c with
      | none => none
      | some d =>
        match parseStringLit rest2 with
        | none => none
        | some (s, r) => some (⟨d :: s.data⟩, r)
  | c :: rest =>
    match parseStringLit rest with
    | none => none
    | some (s, r) => some (⟨c :: s.data⟩, r)

/-- Decide whether a character is an ascii digit. -/
def isDigitCh (c : Char) : Bool := ('0' ≤ c) && (c ≤ '9')

/-- Longest digit run at the head of the input, with the remaining input. -/
def spanDigits : List Char → (List Char × List Char)
  | [] => ([], [])
  | c :: rest =>
    if isDigitCh c then
      let p := spanDigits rest
      (c :: p.1, p.2)
    else ([], c :: rest)

/-- Parse an unsigned numeric literal: digits with an optional fraction. -/
def parseNumCore (cs : List Char) : Option (String × List Char) :=
  let p := spanDigits cs
  match p.1 with
  | [] => none
  | ds =>
    match p.2 with
    | '.' :: rest2 =>
      let q := spanDigits rest2
      match q.1 with
      | [] => none
      | fs => some (⟨ds ++ '.' :: fs⟩, q.2)
    | r => some (⟨ds⟩, r)

/-- Parse a JSON numeric literal with an optional leading minus sign. -/
def parseNum : List Char → Option (RawVal × List Char)
  | '-' :: rest =>
    match parseNumCore rest with
    | none => none
    | some (s, r) => some (RawVal.num ⟨'-' :: s.data⟩, r)
  | cs =>
    match parseNumCore cs with
    | none => none
    | some (s, r) => some (RawVal.num s, r)

mutual

/-- Fuel-indexed parser for a single JSON value at the head of the input;
returns the parsed value and the unconsumed remainder. -/
def parseVal : Nat → List Char → Option (RawVal × List Char)
  | 0, _ => none
  | Nat.succ fuel, cs =>
    match cs with
    | 'n' :: 'u' :: 'l' :: 'l' :: rest => some (RawVal.null, rest)
    | 't' :: 'r' :: 'u' :: 'e' :: rest => some (RawVal.boolean true, rest)
    | 'f' :: 'a' :: 'l' :: 's' :: 'e' :: rest => some (RawVal.boolean false, rest)
    | '"' :: rest =>
      match parseStringLit rest with
      | none => none
      | some (s, r) => some (RawVal.str s, r)
    | '[' :: rest =>
      match parseItems0 fuel rest with
      | none => none
      | some (vs, r) => some (RawVal.arr vs, r)
    | '\x7b' :: rest =>
      match parseMembers0 fuel rest with
      | none => none
      | some (ms, r) => some (RawVal.obj ms, r)
    | other => parseNum other

/-- Parse the items of a JSON array, after the opening bracket, up to and
including the closing bracket. -/
def parseItems0 : Nat → List Char → Option (List RawVal × List Char)
  | 0, _ => none
  | Nat.succ fuel, cs =>
    match cs with
    | ']' :: rest => some ([], rest)
    | other =>
      match parseVal fuel other with
      | none => none
      | some (v, rest) =>
        match rest with
        | ',' :: rest2 =>
          match parseItems0 fuel rest2 with
          | none => none
          | some (vs, r) => some (v :: vs, r)
        | ']' :: rest2 => some ([v], rest2)
        | _ => none

/-- Parse the members of a JSON object, after the opening brace, up to and
including the closing brace. -/
def parseMembers0 : Nat → List Char → Option (List (String × RawVal) × List Char)
  | 0, _ => none
  | Nat.succ fuel, cs =>
    match cs with
    | '\x7d' :: rest => some ([], rest)
    | '"' :: rest =>
      match parseStringLit rest with
      | none => none
      | some (k, r1) =>
        match r1 with
        | ':' :: r2 =>
          match parseVal fuel r2 with
          | none => none
          | some (v, r3) =>
            match r3 with
            | ',' :: r4 =>
              match parseMembers0 fuel r4 with
              | none => none
              | some (ms, r) => some ((k, v) :: ms, r)
            | '\x7d' :: r4 => some ([(k, v)], r4)
            | _ => none
        | _ => none
    | _ => none

end

theorem parseVal_nil (fuel : Nat) : parseVal fuel [] = none := by
  cases fuel <;> rfl

theorem parseVal_rbracket (fuel : Nat) (t : List Char) :
    parseVal fuel (']' :: t) = none := by
  cases fuel <;> rfl

/-- Abstract element of the builder package: a Jsonable value is anything
with a ToJson rendering, a Raw native value and an IsEmpty flag. The
arrayField code of part_002 stores such values behind the Jsonable
interface, so an element is modelled by the results of its three methods. -/
structure Jsonable where
  toJson : String
  raw : RawVal
  isEmpty : Bool

/-- Modelled from the spec: the builder package Null node (its file is not
under src/). Per the data model a Null node renders as the JSON null
literal, its Raw value is the null value and IsEmpty is always true. -/
def nullField : Jsonable :=
  { toJson := "null", raw := RawVal.null, isEmpty := true }

/-- Array node of the builder package (part_002): a slice of Jsonable
values. Go interface slots may hold nil, hence Option. -/
structure ArrayField where
  values : List (Option Jsonable)

/-- Rendering of one slot exactly as the ToJson loop of part_002 does it:
a nil item contributes the rendering of the Null node. -/
def elemJson : Option Jsonable → String
  | none => nullField.toJson
  | some j => j.toJson

/-- Raw value of one slot exactly as the Raw loop of part_002 does it:
a nil item contributes the Raw value of the Null node. -/
def elemRaw : Option Jsonable → RawVal
  | none => nullField.raw
  | some j => j.raw

/-- Comma-joined renderings of the items, mirroring the loop of
arrayField.ToJson, which appends a comma after every item but the last. -/
def joinItems : List (Option Jsonable) → String
  | [] => ""
  | [x] => elemJson x
  | x :: y :: rest => elemJson x ++ "," ++ joinItems (y :: rest)

/-- Translation of arrayField.ToJson from part_002. -/
def ArrayField.toJson (s : ArrayField) : String :=
  "[" ++ joinItems s.values ++ "]"

/-- Translation of arrayField.Raw from part_002. -/
def ArrayField.raw (s : ArrayField) : RawVal :=
  RawVal.arr (s.values.map elemRaw)

/-- Loop of arrayField.IsEmpty from part_002. The Go loop calls IsEmpty on
each element without a nil check, so a nil slot dereferences a nil
interface; that panic is modelled as none. -/
def isEmptyLoop : List (Option Jsonable) → Option Bool
  | [] => some true
  | none :: _ => none
  | some v :: rest => if v.isEmpty = false then some false else isEmptyLoop rest

/-- Translation of arrayField.IsEmpty from part_002: an empty slice is
empty, otherwise the result of the loop over the elements. -/
def ArrayField.isEmpty (s : ArrayField) : Option Bool :=
  if s.values.length = 0 then some true else isEmptyLoop s.values

/-- Round-trip property of one slot: the rendering of the slot parses back,
with any fuel past some bound and in front of any continuation, to exactly
its Raw value, consuming exactly the rendering. Children of an array enter
the round-trip claim through this hypothesis. -/
def ElemOk (x : Option Jsonable) : Prop :=
  ∀ rest : List Char, ∃ f : Nat, ∀ g : Nat, f ≤ g →
    parseVal g ((elemJson x).data ++ rest) = some (elemRaw x, rest)

theorem elemJson_ne_nil (x : Option Jsonable) (h : ElemOk x) :
    (elemJson x).data ≠ [] := by
  intro hnil
  obtain ⟨f, hf⟩ := h []
  have := hf f (Nat.le_refl f)
  rw [hnil] at this
  simp only [List.nil_append] at this
  rw [parseVal_nil] at this
  exact Option.noConfusion this

theorem elemJson_head_ne_rbracket (x : Option Jsonable) (h : ElemOk x)
    (c : Char) (t : List Char) (hx : (elemJson x).data = c :: t) :
    c ≠ ']' := by
  intro hc
  obtain ⟨f, hf⟩ := h []
  have h1 := hf f (Nat.le_refl f)
  rw [hx, hc] at h1
  simp only [List.cons_append] at h1
  rw [parseVal_rbracket] at h1
  exact Option.noConfusion h1

theorem string_data_append (a b : String) : (a ++ b).data = a.data ++ b.data := rfl

theorem parseVal_lbracket (fuel : Nat) (t : List Char) :
    parseVal (Nat.succ fuel) ('[' :: t)
      = match parseItems0 fuel t with
        | none => none
        | some (vs, r) => some (RawVal.arr vs, r) := rfl

theorem parseItems0_rbracket (fuel : Nat) (t : List Char) :
    parseItems0 (Nat.succ fuel) (']' :: t) = some ([], t) := rfl

theorem parseItems0_cons_last (fuel : Nat) (c : Char) (t r2 : List Char) (v : RawVal)
    (hc : c ≠ ']') (hv : parseVal fuel (c :: t) = some (v, ']' :: r2)) :
    parseItems0 (Nat.succ fuel) (c :: t) = some ([v], r2) := by
  unfold parseItems0
  split
  · next rest heq =>
    rw [List.cons.injEq] at heq
    exact absurd heq.1 hc
  · rw [hv]
    rfl

theorem parseItems0_cons_comma (fuel : Nat) (c : Char) (t r2 r : List Char)
    (v : RawVal) (vs : List RawVal)
    (hc : c ≠ ']') (hv : parseVal fuel (c :: t) = some (v, ',' :: r2))
    (hrec : parseItems0 fuel r2 = some (vs, r)) :
    parseItems0 (Nat.succ fuel) (c :: t) = some (v :: vs, r) := by
  unfold parseItems0
  split
  · next rest heq =>
    rw [List.cons.injEq] at heq
    exact absurd heq.1 hc
  · rw [hv]
    show (match parseItems0 fuel r2 with
      | none => none
      | some (vs2, r3) => some (v :: vs2, r3)) = some (v :: vs, r)
    rw [hrec]

theorem parseItems0_join (xs : List (Option Jsonable))
    (h : ∀ x ∈ xs, ElemOk x) (rest : List Char) :
    ∃ f : Nat, ∀ g : Nat, f ≤ g →
      parseItems0 g ((joinItems xs).data ++ ']' :: rest)
        = some (xs.map elemRaw, rest) := by
  induction xs generalizing rest with
  | nil =>
    refine ⟨1, ?_⟩
    intro g hg
    cases g with
    | zero => exact absurd hg (by omega)
    | succ g0 =>
      show parseItems0 (Nat.succ g0) (']' :: rest) = some ([], rest)
      exact parseItems0_rbracket g0 rest
  | cons x t ih =>
    have hx : ElemOk x := h x (List.mem_cons_self x t)
    cases t with
    | nil =>
      obtain ⟨f1, h1⟩ := hx (']' :: rest)
      refine ⟨f1 + 1, ?_⟩
      intro g hg
      cases g with
      | zero => exact absurd hg (by omega)
      | succ g0 =>
        have hle : f1 ≤ g0 := Nat.succ_le_succ_iff.mp hg
        have h1g := h1 g0 hle
        rcases hdata : (elemJson x).data with _ | ⟨c, t3⟩
        · exact absurd hdata (elemJson_ne_nil x hx)
        · have hc : c ≠ ']' := elemJson_head_ne_rbracket x hx c t3 hdata
          rw [hdata] at h1g
          simp only [List.cons_append] at h1g
          show parseItems0 (Nat.succ g0) ((joinItems [x]).data ++ ']' :: rest)
            = some ([elemRaw x], rest)
          have hjoin : (joinItems [x]).data = c :: t3 := hdata
          rw [hjoin]
          simp only [List.cons_append]
          exact parseItems0_cons_last g0 c (t3 ++ ']' :: rest) rest (elemRaw x) hc h1g
    | cons y t2 =>
      obtain ⟨f2, h2⟩ := ih (fun z hz => h z (List.mem_cons_of_mem x hz)) rest
      obtain ⟨f1, h1⟩ := hx (',' :: ((joinItems (y :: t2)).data ++ ']' :: rest))
      refine ⟨max f1 f2 + 1, ?_⟩
      intro g hg
      cases g with
      | zero => exact absurd hg (by omega)
      | succ g0 =>
        have hle1 : f1 ≤ g0 := by omega
        have hle2 : f2 ≤ g0 := by omega
        have h1g := h1 g0 hle1
        have h2g := h2 g0 hle2
        rcases hdata : (elemJson x).data with _ | ⟨c, t3⟩
        · exact absurd hdata (elemJson_ne_nil x hx)
        · have hc : c ≠ ']' := elemJson_head_ne_rbracket x hx c t3 hdata
          rw [hdata] at h1g
          simp only [List.cons_append] at h1g
          have hjoin : (joinItems (x :: y :: t2)).data
              = c :: (t3 ++ ',' :: (joinItems (y :: t2)).data) := by
            show (elemJson x ++ "," ++ joinItems (y :: t2)).data = _
            rw [string_data_append, string_data_append, hdata]
            simp [show (",").data = [','] from rfl]
          rw [hjoin]
          simp only [List.cons_append, List.append_assoc, List.map_cons]
          exact parseItems0_cons_comma g0 c
            (t3 ++ ',' :: ((joinItems (y :: t2)).data ++ ']' :: rest))
            ((joinItems (y :: t2)).data ++ ']' :: rest) rest (elemRaw x)
            (List.map elemRaw (y :: t2)) hc h1g h2g

theorem arrayField_toJson_data (s : ArrayField) :
    (ArrayField.toJson s).data = '[' :: ((joinItems s.values).data ++ ']' :: []) := rfl

/-- C7: for every Array JsonNode whose non-nil children each satisfy the
round-trip property, parsing the string produced by ToJson yields a value
structurally equal to the value returned by Raw, the whole input being
consumed; nil children are rendered as the Null node both in the ToJson
output and in the Raw value, which is what elemJson and elemRaw encode. -/
theorem arrayField_toJson_reparses_to_raw (s : ArrayField)
    (h : ∀ x ∈ s.values, ElemOk x) :
    ∃ f : Nat, ∀ g : Nat, f ≤ g →
      parseVal g (ArrayField.toJson s).data = some (ArrayField.raw s, []) := by
  obtain ⟨f, hf⟩ := parseItems0_join s.values h []
  refine ⟨f + 1, ?_⟩
  intro g hg
  cases g with
  | zero => exact absurd hg (by omega)
  | succ g0 =>
    have hle : f ≤ g0 := by omega
    rw [arrayField_toJson_data s, parseVal_lbracket g0, hf g0 hle]
    rfl

/-- Modelled from the spec: the builder package Bool scalar node (its file
is not under src/). A non-null scalar always reports IsEmpty false. -/
def boolField (b : Bool) : Jsonable :=
  { toJson := if b then "true" else "false"
    raw := RawVal.boolean b
    isEmpty := false }

/-- Modelled from the spec: the builder package String scalar node (its
file is not under src/). A non-null scalar always reports IsEmpty false.
Escaping of the rendered text is elided; no claim depends on it. -/
def stringField (v : String) : Jsonable :=
  { toJson := "\"" ++ v ++ "\"", raw := RawVal.str v, isEmpty := false }

/-- Modelled from the spec: the builder package Number scalar node (its
file is not under src/), keeping the numeric literal as text. A non-null
scalar always reports IsEmpty false. -/
def numField (n : String) : Jsonable :=
  { toJson := n, raw := RawVal.num n, isEmpty := false }

theorem elemOk_none : ElemOk none := by
  intro rest
  refine ⟨1, ?_⟩
  intro g hg
  cases g with
  | zero => exact absurd hg (by omega)
  | succ g0 => rfl

theorem elemOk_bool (b : Bool) : ElemOk (some (boolField b)) := by
  intro rest
  refine ⟨1, ?_⟩
  intro g hg
  cases g with
  | zero => exact absurd hg (by omega)
  | succ g0 => cases b <;> rfl

/-- Witness for C7 at the concrete array of a Bool node and a nil slot,
whose rendering is the text of a two-element JSON array. -/
theorem arrayField_toJson_reparses_to_raw_witness :
    ∃ f : Nat, ∀ g : Nat, f ≤ g →
      parseVal g (ArrayField.toJson (ArrayField.mk [some (boolField true), none])).data
        = some (ArrayField.raw (ArrayField.mk [some (boolField true), none]), []) := by
  apply arrayField_toJson_reparses_to_raw
  intro x hx
  simp only [List.mem_cons, List.not_mem_nil, or_false] at hx
  rcases hx with rfl | rfl
  · exact elemOk_bool true
  · exact elemOk_none

theorem isEmptyLoop_eq (l : List (Option Jsonable)) (hnn : ∀ x ∈ l, x ≠ none) :
    (isEmptyLoop l = some true ↔ ∀ e : Jsonable, some e ∈ l → e.isEmpty = true) := by
  induction l with
  | nil => simp [isEmptyLoop]
  | cons x t ih =>
    cases x with
    | none => exact absurd rfl (hnn none (List.mem_cons_self _ _))
    | some v =>
      have ihr := ih (fun z hz => hnn z (List.mem_cons_of_mem _ hz))
      by_cases hv : v.isEmpty = true
      · rw [show isEmptyLoop (some v :: t) = isEmptyLoop t by
          simp [isEmptyLoop, hv]]
        rw [ihr]
        constructor
        · intro hall e he
          rw [List.mem_cons] at he
          rcases he with he1 | he2
          · rw [Option.some.injEq] at he1
            rw [he1]
            exact hv
          · exact hall e he2
        · intro hall e he
          exact hall e (List.mem_cons_of_mem _ he)
      · have hvf : v.isEmpty = false := by
          cases hb : v.isEmpty
          · rfl
          · exact absurd hb hv
        rw [show isEmptyLoop (some v :: t) = some false by
          simp [isEmptyLoop, hvf]]
        constructor
        · intro hcon
          exact absurd hcon (by simp)
        · intro hall
          exact absurd (hall v (List.mem_cons_self _ _)) hv

/-- C8: for every Array node whose slots hold actual nodes (no Go nil
interface, on which the source IsEmpty loop would panic), IsEmpty returns
true exactly when every element is empty, vacuously true for the empty
array; and the non-null scalar nodes never report IsEmpty true. -/
theorem arrayField_isEmpty_iff (s : ArrayField)
    (hnn : ∀ x ∈ s.values, x ≠ none) :
    (ArrayField.isEmpty s = some true
        ↔ ∀ e : Jsonable, some e ∈ s.values → e.isEmpty = true)
    ∧ (∀ b : Bool, (boolField b).isEmpty = false)
    ∧ (∀ v : String, (stringField v).isEmpty = false)
    ∧ (∀ n : String, (numField n).isEmpty = false) := by
  refine ⟨?_, fun _ => rfl, fun _ => rfl, fun _ => rfl⟩
  unfold ArrayField.isEmpty
  by_cases hlen : s.values.length = 0
  · have hempty : s.values = [] := List.length_eq_zero.mp hlen
    rw [if_pos hlen, hempty]
    simp
  · rw [if_neg hlen]
    exact isEmptyLoop_eq s.values hnn

/-- Witness for C8 at a one-element array holding a Bool node: the array
is not empty because its single element is not empty. -/
theorem arrayField_isEmpty_iff_witness :
    (ArrayField.isEmpty (ArrayField.mk [some (boolField true)]) = some true
        ↔ ∀ e : Jsonable, some e ∈ [some (boolField true)] → e.isEmpty = true)
    ∧ (∀ b : Bool, (boolField b).isEmpty = false)
    ∧ (∀ v : String, (stringField v).isEmpty = false)
    ∧ (∀ n : String, (numField n).isEmpty = false) := by
  apply arrayField_isEmpty_iff (ArrayField.mk [some (boolField true)])
  intro x hx
  simp only [List.mem_cons, List.not_mem_nil, or_false] at hx
  rw [hx]
  exact Option.noConfusion

/-- Go context, reduced to the only observable the connectors consult: an
optional deadline in abstract time units. -/
structure Ctx where
  deadline : Option Nat

/-- Package-level ctx of part_000, context.Background(): no deadline. -/
def backgroundCtx : Ctx :=
  { deadline := none }

/-- Outcome of a semaphore acquisition: granted, canceled by the context,
or blocked forever. -/
inductive AcqOutcome where
  | granted : AcqOutcome
  | canceled : AcqOutcome
  | blocked : AcqOutcome
deriving DecidableEq, Repr

/-- Semantics of semaphore.Acquire with weight 1 on a pool of capacity at
least 1: freeAt says when, if ever, a slot becomes free. The acquire is
granted when that happens no later than the context deadline, is canceled
with the context error when the deadline ends first, and blocks forever
when there is no deadline and no slot ever frees. -/
def semAcquire (c : Ctx) (freeAt : Option Nat) : AcqOutcome :=
  match freeAt, c.deadline with
  | some t, some d => if t ≤ d then AcqOutcome.granted else AcqOutcome.canceled
  | some _, none => AcqOutcome.granted
  | none, some _ => AcqOutcome.canceled
  | none, none => AcqOutcome.blocked

theorem semAcquire_background_ne_canceled (freeAt : Option Nat) :
    semAcquire backgroundCtx freeAt ≠ AcqOutcome.canceled := by
  cases freeAt <;> simp [semAcquire, backgroundCtx]

theorem semAcquire_background_some (t : Nat) :
    semAcquire backgroundCtx (some t) = AcqOutcome.granted := rfl

theorem semAcquire_background_none :
    semAcquire backgroundCtx none = AcqOutcome.blocked := rfl

/-- Errors surfaced by apiConnector.get, tagged by the producing step; the
Nat payload stands for the underlying Go error value of oracle-decided
failures. ctxDone is the context error a canceled acquire returns. -/
inductive GoError where
  | errEmpty : GoError
  | ctxDone : GoError
  | newReqErr : Nat → GoError
  | doErr : Nat → GoError
  | readErr : Nat → GoError
deriving DecidableEq, Repr

/-- Proxy block of config.ServerConnectorConfig. -/
structure ProxyCfg where
  server : String
  username : String
  password : String
deriving DecidableEq, Repr

/-- Fields of config.ServerConnectorConfig that apiConnector.get reads. -/
structure ServerConnectorConfig where
  method : String
  body : String
  jsonRawBody : Option String
  headers : List (String × String)
  proxy : Option ProxyCfg
  timeout : Nat
deriving DecidableEq, Repr

/-- Transport of an http.Client: the zero value, or the proxy transport
the proxy branch of get installs, holding the template-expanded server
text and the optional user info (username, optional password). -/
inductive Transport where
  | default : Transport
  | proxy : String → Option (String × Option String) → Transport
deriving DecidableEq, Repr

/-- The apiConnector receiver of part_000: url, optional per-connector
http.Client (identified by its transport), config. -/
structure ApiConnector where
  url : String
  client : Option Transport
  cfg : ServerConnectorConfig

/-- The http.Request get builds: method, url and body exactly as passed to
http.NewRequest, the host of the parsed url, and the added headers. -/
structure Request where
  method : String
  url : String
  body : String
  host : String
  headers : List (String × String)
deriving DecidableEq, Repr

/-- Observable events of one get run: pool operations and the request
send, the send carrying the request, the transport of the client used and
the request-context timeout in seconds. -/
inductive Ev where
  | acquireGlobal : Ev
  | releaseGlobal : Ev
  | acquireHost : Ev
  | releaseHost : Ev
  | send : Request → Transport → Nat → Ev
deriving DecidableEq, Repr

/-- Oracle deciding every external effect of one get run: slot
availability of the two pools, http.NewRequest failure, the host of a
parsed url, whether limitter.HostLimiter returns a limiter for a host,
url.Parse success for the proxy server, and the outcomes of client.Do and
io.ReadAll plus the response headers. -/
structure Oracle where
  globalFreeAt : Option Nat
  hostFreeAt : Option Nat
  newReqFail : String → String → Option Nat
  hostOf : String → String
  hostLimiterExists : String → Bool
  parseOk : String → Bool
  doResult : Request → Transport → Nat → Except Nat Nat
  readResult : Nat → Except Nat String
  respHeaders : Nat → Nat

/-- Result of a returning get call: the (headers, body, err) triple, the
event trace, and the transport of the process-wide shared default client
after the call. A blocked-forever call yields none at the apiGet level. -/
structure GetRet where
  headers : Option Nat
  body : Option String
  err : Option GoError
  trace : List Ev
  defaultTransport : Transport
deriving DecidableEq, Repr

/-- Template-expanded request body of get: JsonRawBody wins when present
and non-empty, otherwise Body; each goes through utils.Format. -/
def formattedBodyOf (fmt : String → String) (cfg : ServerConnectorConfig) : String :=
  match cfg.jsonRawBody with
  | some raw => if 0 < raw.length then fmt raw else fmt cfg.body
  | none => fmt cfg.body

/-- Proxy user info exactly as the proxy branch of get builds it: a
username only when non-empty, the password attached only when it is also
non-empty, each template-expanded. -/
def mkProxyUser (fmt : String → String) (p : ProxyCfg) : Option (String × Option String) :=
  if p.username ≠ "" then
    some (fmt p.username, if p.password ≠ "" then some (fmt p.password) else none)
  else none

/-- Request-context timeout of get: the configured seconds when positive,
else the 60 second package default. -/
def reqTimeout (cfg : ServerConnectorConfig) : Nat :=
  if 0 < cfg.timeout then cfg.timeout else 60

/-- Request value get hands to client.Do: the method verbatim from the
config, url and body template-expanded, the headers expanded in both name
and value, the host taken from the parsed url. -/
def builtReq (o : Oracle) (fmt : String → String) (api : ApiConnector) : Request :=
  { method := api.cfg.method
    url := fmt api.url
    body := formattedBodyOf fmt api.cfg
    host := o.hostOf (fmt api.url)
    headers := api.cfg.headers.map (fun kv => (fmt kv.1, fmt kv.2)) }

/-- Final stage of get: client.Do under the request timeout, io.ReadAll,
and the releases that the deferred calls run on every exit path. The
hostHeld flag records whether the host slot is held, deciding which
releases the defers perform. -/
def apiGetSend (o : Oracle) (api : ApiConnector) (req : Request)
    (usedT : Transport) (defT2 : Transport) (hostHeld : Bool) : Option GetRet :=
  let pre := if hostHeld then [Ev.acquireGlobal, Ev.acquireHost] else [Ev.acquireGlobal]
  let post := if hostHeld then [Ev.releaseHost, Ev.releaseGlobal] else [Ev.releaseGlobal]
  match o.doResult req usedT (reqTimeout api.cfg) with
  | Except.error e =>
    some { headers := none, body := none, err := some (GoError.doErr e)
           trace := pre ++ Ev.send req usedT (reqTimeout api.cfg) :: post
           defaultTransport := defT2 }
  | Except.ok resp =>
    match o.readResult resp with
    | Except.error e =>
      some { headers := none, body := none, err := some (GoError.readErr e)
             trace := pre ++ Ev.send req usedT (reqTimeout api.cfg) :: post
             defaultTransport := defT2 }
    | Except.ok bs =>
      some { headers := some (o.respHeaders resp), body := some bs, err := none
             trace := pre ++ Ev.send req usedT (reqTimeout api.cfg) :: post
             defaultTransport := defT2 }

/-- Host-pool stage of get: when limitter.HostLimiter yields a limiter for
the request host, acquire it with the package background context before
sending; an acquire error returns with only the global defer releasing. -/
def apiGetTail (o : Oracle) (api : ApiConnector) (req : Request)
    (usedT : Transport) (defT2 : Transport) : Option GetRet :=
  if o.hostLimiterExists req.host then
    match semAcquire backgroundCtx o.hostFreeAt with
    | AcqOutcome.blocked => none
    | AcqOutcome.canceled =>
      some { headers := none, body := none, err := some GoError.ctxDone
             trace := [Ev.acquireGlobal, Ev.releaseGlobal]
             defaultTransport := defT2 }
    | AcqOutcome.granted => apiGetSend o api req usedT defT2 true
  else apiGetSend o api req usedT defT2 false

/-- Translation of apiConnector.get from part_000. The template expansion
against the call scope (parsedValue, index, input) is the abstract fmt.
Returning none models a call that never returns because an acquire blocks
forever. On the proxy branch a url.Parse failure returns the err variable,
which is nil at that point since http.NewRequest succeeded, so the
function yields the success-shaped nil triple while the deferred global
release still runs. When no per-connector client is set, the proxy branch
overwrites the Transport of the process-wide shared default client. -/
def apiGet (o : Oracle) (fmt : String → String) (api : ApiConnector)
    (defT : Transport) : Option GetRet :=
  if fmt api.url = "" then
    some { headers := none, body := none, err := some GoError.errEmpty
           trace := [], defaultTransport := defT }
  else
    match semAcquire backgroundCtx o.globalFreeAt with
    | AcqOutcome.blocked => none
    | AcqOutcome.canceled =>
      some { headers := none, body := none, err := some GoError.ctxDone
             trace := [], defaultTransport := defT }
    | AcqOutcome.granted =>
      match o.newReqFail api.cfg.method (fmt api.url) with
      | some e =>
        some { headers := none, body := none, err := some (GoError.newReqErr e)
               trace := [Ev.acquireGlobal, Ev.releaseGlobal]
               defaultTransport := defT }
      | none =>
        let req : Request := builtReq o fmt api
        match api.cfg.proxy with
        | none =>
          match api.client with
          | some ct => apiGetTail o api req ct defT
          | none => apiGetTail o api req defT defT
        | some p =>
          if o.parseOk (fmt p.server) then
            match api.client with
            | none =>
              apiGetTail o api req
                (Transport.proxy (fmt p.server) (mkProxyUser fmt p))
                (Transport.proxy (fmt p.server) (mkProxyUser fmt p))
            | some _ =>
              apiGetTail o api req
                (Transport.proxy (fmt p.server) (mkProxyUser fmt p)) defT
          else
            some { headers := none, body := none, err := none
                   trace := [Ev.acquireGlobal, Ev.releaseGlobal]
                   defaultTransport := defT }

theorem apiGetSend_spec (o : Oracle) (api : ApiConnector) (req1 : Request)
    (usedT defT2 : Transport) (hostHeld : Bool) (r : GetRet)
    (hr : apiGetSend o api req1 usedT defT2 hostHeld = some r) :
    r.defaultTransport = defT2
    ∧ r.err ≠ some GoError.ctxDone
    ∧ (r.trace = (if hostHeld then
          [Ev.acquireGlobal, Ev.acquireHost,
           Ev.send req1 usedT (reqTimeout api.cfg),
           Ev.releaseHost, Ev.releaseGlobal]
        else
          [Ev.acquireGlobal,
           Ev.send req1 usedT (reqTimeout api.cfg),
           Ev.releaseGlobal])) := by
  rcases hdo : o.doResult req1 usedT (reqTimeout api.cfg) with e | resp
  · have he : apiGetSend o api req1 usedT defT2 hostHeld
        = some { headers := none, body := none, err := some (GoError.doErr e)
                 trace := (if hostHeld then
                     [Ev.acquireGlobal, Ev.acquireHost,
                      Ev.send req1 usedT (reqTimeout api.cfg),
                      Ev.releaseHost, Ev.releaseGlobal]
                   else
                     [Ev.acquireGlobal,
                      Ev.send req1 usedT (reqTimeout api.cfg),
                      Ev.releaseGlobal])
                 defaultTransport := defT2 } := by
      unfold apiGetSend
      rw [hdo]
      cases hostHeld <;> rfl
    rw [he] at hr
    cases hr
    exact ⟨rfl, by simp, rfl⟩
  · rcases hread : o.readResult resp with e | bs
    · have he : apiGetSend o api req1 usedT defT2 hostHeld
          = some { headers := none, body := none, err := some (GoError.readErr e)
                   trace := (if hostHeld then
                       [Ev.acquireGlobal, Ev.acquireHost,
                        Ev.send req1 usedT (reqTimeout api.cfg),
                        Ev.releaseHost, Ev.releaseGlobal]
                     else
                       [Ev.acquireGlobal,
                        Ev.send req1 usedT (reqTimeout api.cfg),
                        Ev.releaseGlobal])
                   defaultTransport := defT2 } := by
        unfold apiGetSend
        simp only [hdo, hread]
        cases hostHeld <;> rfl
      rw [he] at hr
      cases hr
      exact ⟨rfl, by simp, rfl⟩
    · have he : apiGetSend o api req1 usedT defT2 hostHeld
          = some { headers := some (o.respHeaders resp), body := some bs, err := none
                   trace := (if hostHeld then
                       [Ev.acquireGlobal, Ev.acquireHost,
                        Ev.send req1 usedT (reqTimeout api.cfg),
                        Ev.releaseHost, Ev.releaseGlobal]
                     else
                       [Ev.acquireGlobal,
                        Ev.send req1 usedT (reqTimeout api.cfg),
                        Ev.releaseGlobal])
                   defaultTransport := defT2 } := by
        unfold apiGetSend
        simp only [hdo, hread]
        cases hostHeld <;> rfl
      rw [he] at hr
      cases hr
      exact ⟨rfl, by simp, rfl⟩

theorem apiGetTail_spec (o : Oracle) (api : ApiConnector) (req1 : Request)
    (usedT defT2 : Transport) (r : GetRet)
    (hr : apiGetTail o api req1 usedT defT2 = some r) :
    r.defaultTransport = defT2
    ∧ r.err ≠ some GoError.ctxDone
    ∧ (r.trace = [Ev.acquireGlobal,
          Ev.send req1 usedT (reqTimeout api.cfg), Ev.releaseGlobal]
       ∨ r.trace = [Ev.acquireGlobal, Ev.acquireHost,
          Ev.send req1 usedT (reqTimeout api.cfg),
          Ev.releaseHost, Ev.releaseGlobal]) := by
  unfold apiGetTail at hr
  by_cases hl : o.hostLimiterExists req1.host = true
  · rw [if_pos hl] at hr
    rcases hacq : semAcquire backgroundCtx o.hostFreeAt with _ | _ | _
    · rw [hacq] at hr
      obtain ⟨h1, h2, h3⟩ := apiGetSend_spec o api req1 usedT defT2 true r hr
      refine ⟨h1, h2, Or.inr ?_⟩
      rw [h3]
      rfl
    · exact absurd hacq (semAcquire_background_ne_canceled o.hostFreeAt)
    · rw [hacq] at hr
      exact Option.noConfusion hr
  · rw [if_neg hl] at hr
    obtain ⟨h1, h2, h3⟩ := apiGetSend_spec o api req1 usedT defT2 false r hr
    refine ⟨h1, h2, Or.inl ?_⟩
    rw [h3]
    rfl

theorem apiGet_cases (o : Oracle) (fmt : String → String) (api : ApiConnector)
    (defT : Transport) (r : GetRet) (hr : apiGet o fmt api defT = some r) :
    (fmt api.url = ""
       ∧ r = ⟨none, none, some GoError.errEmpty, [], defT⟩)
    ∨ (∃ e, r = ⟨none, none, some (GoError.newReqErr e),
         [Ev.acquireGlobal, Ev.releaseGlobal], defT⟩)
    ∨ (∃ p, api.cfg.proxy = some p ∧ o.parseOk (fmt p.server) = false
       ∧ r = ⟨none, none, none, [Ev.acquireGlobal, Ev.releaseGlobal], defT⟩)
    ∨ (∃ usedT defT2,
        apiGetTail o api (builtReq o fmt api) usedT defT2 = some r
        ∧ ((api.cfg.proxy = none ∧ defT2 = defT
              ∧ usedT = (match api.client with | some ct => ct | none => defT))
           ∨ (∃ p, api.cfg.proxy = some p ∧ o.parseOk (fmt p.server) = true
              ∧ usedT = Transport.proxy (fmt p.server) (mkProxyUser fmt p)
              ∧ defT2 = (match api.client with | none => usedT | some _ => defT)))) := by
  unfold apiGet at hr
  by_cases hurl : fmt api.url = ""
  · rw [if_pos hurl] at hr
    cases hr
    exact Or.inl ⟨hurl, rfl⟩
  · rw [if_neg hurl] at hr
    rcases hacq : semAcquire backgroundCtx o.globalFreeAt with _ | _ | _
    · rw [hacq] at hr
      rcases hnr : o.newReqFail api.cfg.method (fmt api.url) with _ | e
      · simp only [hnr] at hr
        rcases hp : api.cfg.proxy with _ | p
        · simp only [hp] at hr
          rcases hc : api.client with _ | ct
          · simp only [hc] at hr
            exact Or.inr (Or.inr (Or.inr ⟨defT, defT, hr, Or.inl ⟨rfl, rfl, rfl⟩⟩))
          · simp only [hc] at hr
            exact Or.inr (Or.inr (Or.inr ⟨ct, defT, hr, Or.inl ⟨rfl, rfl, rfl⟩⟩))
        · simp only [hp] at hr
          by_cases hpp : o.parseOk (fmt p.server) = true
          · rw [if_pos hpp] at hr
            rcases hc : api.client with _ | ct
            · simp only [hc] at hr
              exact Or.inr (Or.inr (Or.inr ⟨Transport.proxy (fmt p.server) (mkProxyUser fmt p),
                Transport.proxy (fmt p.server) (mkProxyUser fmt p), hr,
                Or.inr ⟨p, rfl, hpp, rfl, rfl⟩⟩))
            · simp only [hc] at hr
              exact Or.inr (Or.inr (Or.inr ⟨Transport.proxy (fmt p.server) (mkProxyUser fmt p),
                defT, hr, Or.inr ⟨p, rfl, hpp, rfl, rfl⟩⟩))
          · rw [if_neg hpp] at hr
            cases hr
            have hfalse : o.parseOk (fmt p.server) = false := by
              simp at hpp
              exact hpp
            exact Or.inr (Or.inr (Or.inl ⟨p, rfl, hfalse, rfl⟩))
      · simp only [hnr] at hr
        cases hr
        exact Or.inr (Or.inl ⟨e, rfl⟩)
    · exact absurd hacq (semAcquire_background_ne_canceled o.globalFreeAt)
    · rw [hacq] at hr
      exact Option.noConfusion hr

/-- Checker of the pool discipline of a single get trace. The only shapes
a returning run can leave are, in order: nothing acquired; global
acquired then released; global acquired, request sent, global released;
global acquired, host acquired, request sent, host released, global
released. Each shape acquires the global slot before the host slot, sends
only after every acquisition, and releases every acquired slot exactly
once, in reverse order, on every exit path. -/
def traceShapeOk : List Ev → Bool
  | [] => true
  | [Ev.acquireGlobal, Ev.releaseGlobal] => true
  | [Ev.acquireGlobal, Ev.send _ _ _, Ev.releaseGlobal] => true
  | [Ev.acquireGlobal, Ev.acquireHost, Ev.send _ _ _,
     Ev.releaseHost, Ev.releaseGlobal] => true
  | _ => false

/-- C6: every returning run of get acquires the global pool before the
host pool, acquires both before the request is issued, and releases every
acquired slot exactly once on every exit path, as captured by the shape
checker of the event trace. -/
theorem apiGet_pool_discipline (o : Oracle) (fmt : String → String)
    (api : ApiConnector) (defT : Transport) (r : GetRet)
    (hr : apiGet o fmt api defT = some r) :
    traceShapeOk r.trace = true := by
  rcases apiGet_cases o fmt api defT r hr with
    ⟨_, rfl⟩ | ⟨e, rfl⟩ | ⟨p, _, _, rfl⟩ | ⟨u, d2, htail, _⟩
  · rfl
  · rfl
  · rfl
  · obtain ⟨_, _, h3⟩ := apiGetTail_spec o api (builtReq o fmt api) u d2 r htail
    rcases h3 with h | h <;> rw [h] <;> rfl

/-- Template expansion fixture that marks its input with a bang. -/
def fmtBang (s : String) : String := s ++ "!"

/-- Oracle fixture: pools immediately free, a host limiter present, and
every external step succeeding. -/
def oBase : Oracle :=
  { globalFreeAt := some 0
    hostFreeAt := some 0
    newReqFail := fun _ _ => none
    hostOf := fun _ => "h"
    hostLimiterExists := fun _ => true
    parseOk := fun _ => true
    doResult := fun _ _ _ => Except.ok 0
    readResult := fun _ => Except.ok ("ok")
    respHeaders := fun _ => 0 }

/-- Connector fixture: a plain GET with one header and no proxy. -/
def apiC4 : ApiConnector :=
  { url := "u"
    client := none
    cfg := { method := "GET", body := "b", jsonRawBody := none
             headers := [("k", "v")], proxy := none, timeout := 0 } }

/-- Request the fixture run sends: every expanded field carries the bang
mark, the method does not. -/
def reqW : Request :=
  { method := "GET", url := "u!", body := "b!", host := "h"
    headers := [("k!", "v!")] }

/-- Full result of the fixture run. -/
def retW : GetRet :=
  { headers := some 0, body := some ("ok"), err := none
    trace := [Ev.acquireGlobal, Ev.acquireHost,
      Ev.send reqW Transport.default 60, Ev.releaseHost, Ev.releaseGlobal]
    defaultTransport := Transport.default }

/-- Witness for C6 at the fixture run: its five-event trace passes the
shape checker. -/
theorem apiGet_pool_discipline_witness :
    traceShapeOk retW.trace = true :=
  apiGet_pool_discipline oBase fmtBang apiC4 Transport.default retW rfl

/-- C4 as stated is false: the method is never template-expanded. At this
input the run sends a request whose url, body and header fields all carry
the bang mark of the expansion, while the sent method is the verbatim GET
of the descriptor and differs from its expansion. -/
theorem apiGet_method_not_formatted :
    apiGet oBase fmtBang apiC4 Transport.default = some retW
    ∧ Ev.send reqW Transport.default 60 ∈ retW.trace
    ∧ reqW.method ≠ fmtBang apiC4.cfg.method := by
  refine ⟨rfl, by decide, by decide⟩

/-- C4 amended: for every request a returning run of get sends, the url,
the body, the header names and values, and the proxy server, username and
password are template-expanded against the scope before use, while the
method is taken verbatim from the descriptor. -/
theorem apiGet_fields_formatted (o : Oracle) (fmt : String → String)
    (api : ApiConnector) (defT : Transport) (r : GetRet)
    (hr : apiGet o fmt api defT = some r)
    (req : Request) (t : Transport) (d : Nat)
    (hs : Ev.send req t d ∈ r.trace) :
    req.method = api.cfg.method
    ∧ req.url = fmt api.url
    ∧ req.body = formattedBodyOf fmt api.cfg
    ∧ req.headers = api.cfg.headers.map (fun kv => (fmt kv.1, fmt kv.2))
    ∧ (∀ p, api.cfg.proxy = some p →
        t = Transport.proxy (fmt p.server) (mkProxyUser fmt p)) := by
  rcases apiGet_cases o fmt api defT r hr with
    ⟨_, rfl⟩ | ⟨e, rfl⟩ | ⟨p, _, _, rfl⟩ | ⟨u, d2, htail, hcase⟩
  · simp at hs
  · simp at hs
  · simp at hs
  · obtain ⟨_, _, h3⟩ := apiGetTail_spec o api (builtReq o fmt api) u d2 r htail
    have hsend : req = builtReq o fmt api ∧ t = u := by
      rcases h3 with h | h <;> rw [h] at hs <;> simp at hs <;>
        exact ⟨hs.1, hs.2.1⟩
    obtain ⟨hreq, ht⟩ := hsend
    subst hreq
    subst ht
    refine ⟨rfl, rfl, rfl, rfl, ?_⟩
    intro p hp
    rcases hcase with ⟨hpn, _, _⟩ | ⟨q, hq, hqq, hu, _⟩
    · rw [hpn] at hp
      exact Option.noConfusion hp
    · rw [hq] at hp
      rw [Option.some.injEq] at hp
      rw [hu, hp]

/-- Witness for C4 amended at the fixture run. -/
theorem apiGet_fields_formatted_witness :
    reqW.method = apiC4.cfg.method
    ∧ reqW.url = fmtBang apiC4.url
    ∧ reqW.body = formattedBodyOf fmtBang apiC4.cfg
    ∧ reqW.headers = apiC4.cfg.headers.map (fun kv => (fmtBang kv.1, fmtBang kv.2))
    ∧ (∀ p, apiC4.cfg.proxy = some p →
        Transport.default = Transport.proxy (fmtBang p.server) (mkProxyUser fmtBang p)) :=
  apiGet_fields_formatted oBase fmtBang apiC4 Transport.default retW rfl
    reqW Transport.default 60 (by decide)

/-- C5 amended: both pool acquisitions pass the package background
context, which carries no deadline, so the deadline of the caller never
cancels a pool acquisition. An acquire on a pool that never frees blocks
forever — the call never returns — rather than returning a timeout error,
and a returning call never carries the context-cancellation error. -/
theorem apiGet_acquire_background_no_timeout (o : Oracle) (fmt : String → String)
    (api : ApiConnector) (defT : Transport) :
    (∀ freeAt, semAcquire backgroundCtx freeAt ≠ AcqOutcome.canceled)
    ∧ (fmt api.url ≠ "" → o.globalFreeAt = none → apiGet o fmt api defT = none)
    ∧ (∀ r, apiGet o fmt api defT = some r → r.err ≠ some GoError.ctxDone) := by
  refine ⟨semAcquire_background_ne_canceled, ?_, ?_⟩
  · intro hurl hfree
    unfold apiGet
    rw [if_neg hurl, hfree]
    rfl
  · intro r hr
    rcases apiGet_cases o fmt api defT r hr with
      ⟨_, rfl⟩ | ⟨e, rfl⟩ | ⟨p, _, _, rfl⟩ | ⟨u, d2, htail, _⟩
    · simp
    · simp
    · simp
    · exact (apiGetTail_spec o api (builtReq o fmt api) u d2 r htail).2.1

/-- Oracle fixture whose global pool never frees a slot. -/
def oBlocked : Oracle :=
  { oBase with globalFreeAt := none }

/-- Connector fixture with an explicit one second timeout. -/
def apiC5 : ApiConnector :=
  { url := "u"
    client := none
    cfg := { method := "GET", body := "", jsonRawBody := none
             headers := [], proxy := none, timeout := 1 } }

/-- C5 as stated is false: with a global pool that never frees a slot and
a configured one second deadline, get never returns at all — the acquire
runs on the background context, so the deadline of the caller neither
unblocks it nor turns it into a timeout error; the cancellation return
the claim requires does not exist. -/
theorem apiGet_blocked_acquire_never_cancels :
    apiGet oBlocked fmtBang apiC5 Transport.default = none := rfl

/-- Witness for C5 amended: on the blocked fixture the call indeed never
returns, as the second conjunct of the theorem demands. -/
theorem apiGet_acquire_background_no_timeout_witness :
    apiGet oBlocked fmtBang apiC5 Transport.default = none :=
  (apiGet_acquire_background_no_timeout oBlocked fmtBang apiC5
    Transport.default).2.1 (by decide) rfl

/-- C9: on the proxy branch a url.Parse failure makes get return the
stale err variable of the succeeded http.NewRequest call, which is nil:
the caller receives the success-shaped triple of nil headers, nil body
and nil error, no request is sent, and only the deferred global release
runs. -/
theorem apiGet_proxy_parse_failure_nil_triple (o : Oracle) (fmt : String → String)
    (api : ApiConnector) (defT : Transport) (p : ProxyCfg) (t0 : Nat)
    (hp : api.cfg.proxy = some p)
    (hurl : fmt api.url ≠ "")
    (hfree : o.globalFreeAt = some t0)
    (hreq : o.newReqFail api.cfg.method (fmt api.url) = none)
    (hparse : o.parseOk (fmt p.server) = false) :
    apiGet o fmt api defT
      = some { headers := none, body := none, err := none
               trace := [Ev.acquireGlobal, Ev.releaseGlobal]
               defaultTransport := defT } := by
  unfold apiGet
  rw [if_neg hurl, hfree]
  simp only [semAcquire_background_some, hreq, hp, hparse]
  rfl

/-- Proxy fixture with empty credentials. -/
def pxyW : ProxyCfg :=
  { server := "ps", username := "", password := "" }

/-- Connector fixture with a configured proxy and no per-connector
client. -/
def apiPx : ApiConnector :=
  { url := "u"
    client := none
    cfg := { method := "GET", body := "", jsonRawBody := none
             headers := [], proxy := some pxyW, timeout := 0 } }

/-- Oracle fixture on which url.Parse fails. -/
def oParseFail : Oracle :=
  { oBase with parseOk := fun _ => false }

/-- Witness for C9: the proxy-parse-failure fixture returns the nil
triple with only the global acquire and release in the trace. -/
theorem apiGet_proxy_parse_failure_nil_triple_witness :
    apiGet oParseFail fmtBang apiPx Transport.default
      = some { headers := none, body := none, err := none
               trace := [Ev.acquireGlobal, Ev.releaseGlobal]
               defaultTransport := Transport.default } :=
  apiGet_proxy_parse_failure_nil_triple oParseFail fmtBang apiPx
    Transport.default pxyW 0 rfl (by decide) rfl rfl rfl

/-- C10: with a proxy configured and no per-connector client, get
overwrites the Transport of the process-wide shared default http.Client,
and the mutation survives the call: any later fetch that has no proxy and
no client of its own sends through the transport the earlier call
installed. -/
theorem apiGet_proxy_mutates_shared_default (o1 : Oracle) (fmt1 : String → String)
    (api1 : ApiConnector) (defT : Transport) (p : ProxyCfg) (t0 : Nat) (r1 : GetRet)
    (hclient1 : api1.client = none)
    (hp1 : api1.cfg.proxy = some p)
    (hurl1 : fmt1 api1.url ≠ "")
    (hfree1 : o1.globalFreeAt = some t0)
    (hreq1 : o1.newReqFail api1.cfg.method (fmt1 api1.url) = none)
    (hparse1 : o1.parseOk (fmt1 p.server) = true)
    (hr1 : apiGet o1 fmt1 api1 defT = some r1) :
    r1.defaultTransport = Transport.proxy (fmt1 p.server) (mkProxyUser fmt1 p)
    ∧ (∀ (o2 : Oracle) (fmt2 : String → String) (api2 : ApiConnector) (r2 : GetRet),
        api2.client = none → api2.cfg.proxy = none →
        apiGet o2 fmt2 api2 r1.defaultTransport = some r2 →
        ∀ req t d, Ev.send req t d ∈ r2.trace →
          t = Transport.proxy (fmt1 p.server) (mkProxyUser fmt1 p)) := by
  have hmain : r1.defaultTransport
      = Transport.proxy (fmt1 p.server) (mkProxyUser fmt1 p) := by
    unfold apiGet at hr1
    rw [if_neg hurl1, hfree1] at hr1
    simp only [semAcquire_background_some, hreq1, hp1, hparse1, if_true,
      hclient1] at hr1
    exact (apiGetTail_spec o1 api1 (builtReq o1 fmt1 api1) _ _ r1 hr1).1
  refine ⟨hmain, ?_⟩
  intro o2 fmt2 api2 r2 hc2 hp2 hr2 req t d hs
  rcases apiGet_cases o2 fmt2 api2 r1.defaultTransport r2 hr2 with
    ⟨_, rfl⟩ | ⟨e, rfl⟩ | ⟨q, _, _, rfl⟩ | ⟨u, d2, htail, hcase⟩
  · simp at hs
  · simp at hs
  · simp at hs
  · obtain ⟨_, _, h3⟩ := apiGetTail_spec o2 api2 (builtReq o2 fmt2 api2) u d2 r2 htail
    have ht : t = u := by
      rcases h3 with h | h <;> rw [h] at hs <;> simp at hs <;>
        exact hs.2.1
    rcases hcase with ⟨_, _, hu⟩ | ⟨q, hq, _, _, _⟩
    · rw [ht, hu, hc2, hmain]
    · rw [hp2] at hq
      exact Option.noConfusion hq

/-- Request of the first fixture call of C10. -/
def reqPx : Request :=
  { method := "GET", url := "u!", body := "!", host := "h", headers := [] }

/-- Result of the first fixture call of C10: the shared default transport
has become the proxy transport. -/
def retPx : GetRet :=
  { headers := some 0, body := some ("ok"), err := none
    trace := [Ev.acquireGlobal, Ev.acquireHost,
      Ev.send reqPx (Transport.proxy ("ps!") none) 60,
      Ev.releaseHost, Ev.releaseGlobal]
    defaultTransport := Transport.proxy ("ps!") none }

/-- Witness for C10 at the proxy fixture: the first call installs the
proxy transport on the shared default client, and every later no-proxy
fetch from that state sends through it. -/
theorem apiGet_proxy_mutates_shared_default_witness :
    retPx.defaultTransport
      = Transport.proxy (fmtBang pxyW.server) (mkProxyUser fmtBang pxyW)
    ∧ (∀ (o2 : Oracle) (fmt2 : String → String) (api2 : ApiConnector) (r2 : GetRet),
        api2.client = none → api2.cfg.proxy = none →
        apiGet o2 fmt2 api2 retPx.defaultTransport = some r2 →
        ∀ req t d, Ev.send req t d ∈ r2.trace →
          t = Transport.proxy (fmtBang pxyW.server) (mkProxyUser fmtBang pxyW)) :=
  apiGet_proxy_mutates_shared_default oBase fmtBang apiPx Transport.default
    pxyW 0 retPx rfl rfl (by decide) rfl rfl rfl rfl

/-- Errors of getFromPlaywright, tagged by the producing step; Nat
payloads stand for the underlying Go error values. -/
inductive PwErr where
  | ctxDone : PwErr
  | installE : Nat → PwErr
  | runE : Nat → PwErr
  | launchE : Nat → PwErr
  | pageE : Nat → PwErr
  | stealthE : Nat → PwErr
  | gotoE : Nat → PwErr
  | evalE : Nat → PwErr
  | contentE : Nat → PwErr
  | noDriver : PwErr
deriving DecidableEq, Repr

/-- Browser kind of config.PlaywrightConfig; other stands for any value
that matches none of the three engines. -/
inductive BrowserKind where
  | chromium : BrowserKind
  | firefox : BrowserKind
  | webkit : BrowserKind
  | other : BrowserKind
deriving DecidableEq, Repr

/-- Fields of config.PlaywrightConfig that drive control flow in
getFromPlaywright. The proxy fields only populate launch options and do
not influence control flow, so they are not modelled. -/
structure PlaywrightConfig where
  install : Bool
  browser : BrowserKind
  stealth : Bool
  timeout : Nat
  wait : Nat
  preRunScript : String
deriving DecidableEq, Repr

/-- Process-level install state of the playwright connector: the one-shot
installedPlaywright flag, with ghost counters of install executions and
of successful installs. -/
structure PwState where
  installed : Bool
  installRuns : Nat
  successfulInstalls : Nat
deriving DecidableEq, Repr

/-- Events of the install section. -/
inductive IEv where
  | acquireInstallSem : IEv
  | releaseInstallSem : IEv
  | runInstall : IEv
deriving DecidableEq, Repr

/-- Oracle of the install section: whether the semaphore acquire on the
deadline context succeeds, and the outcome of playwright.Install. -/
structure InstallEnv where
  semAcquireOk : Bool
  installErr : Option Nat
deriving DecidableEq, Repr

/-- Result of the install section: the value of the outer err variable,
whether the goroutine returned early (which only a failed semaphore
acquire causes), the new process state, and the lock events. -/
structure InstallOut where
  errOuter : Option PwErr
  aborted : Bool
  state : PwState
  evs : List IEv
deriving DecidableEq, Repr

/-- Translation of the cfg.Install section of getFromPlaywright
(part_001 lines 50 to 75): whenever Install is configured the caller
acquires the capacity-1 install semaphore (also when the flag is already
set), then under the lock checks the installedPlaywright flag, runs
playwright.Install only when the flag is unset, and stores true only
after a successful install. A failed install leaves err set while
execution continues after the inner func returns and releases the lock. -/
def installSection (installCfg : Bool) (env : InstallEnv) (s : PwState) : InstallOut :=
  if installCfg = false then
    { errOuter := none, aborted := false, state := s, evs := [] }
  else if env.semAcquireOk = false then
    { errOuter := some PwErr.ctxDone, aborted := true, state := s, evs := [] }
  else if s.installed then
    { errOuter := none, aborted := false, state := s
      evs := [IEv.acquireInstallSem, IEv.releaseInstallSem] }
  else
    match env.installErr with
    | some n =>
      { errOuter := some (PwErr.installE n), aborted := false
        state := { s with installRuns := s.installRuns + 1 }
        evs := [IEv.acquireInstallSem, IEv.runInstall, IEv.releaseInstallSem] }
    | none =>
      { errOuter := none, aborted := false
        state := { installed := true, installRuns := s.installRuns + 1
                   successfulInstalls := s.successfulInstalls + 1 }
        evs := [IEv.acquireInstallSem, IEv.runInstall, IEv.releaseInstallSem] }

/-- Sequential fold of callers through the install section. The
capacity-1 semaphore serializes the critical section, so the sequential
fold is a faithful model of concurrent callers. -/
def foldInstall (callers : List (Bool × InstallEnv)) (s : PwState) : PwState :=
  match callers with
  | [] => s
  | c :: rest => foldInstall rest (installSection c.1 c.2 s).state

/-- Invariant tying the flag to the success counter. -/
def InstallInv (s : PwState) : Prop :=
  (s.installed = false → s.successfulInstalls = 0)
  ∧ (s.installed = true → s.successfulInstalls = 1)

theorem installSection_inv (cfg : Bool) (env : InstallEnv) (s : PwState)
    (h : InstallInv s) : InstallInv (installSection cfg env s).state := by
  unfold installSection
  by_cases h1 : cfg = false
  · rw [if_pos h1]
    exact h
  · rw [if_neg h1]
    by_cases h2 : env.semAcquireOk = false
    · rw [if_pos h2]
      exact h
    · rw [if_neg h2]
      by_cases h3 : s.installed = true
      · rw [if_pos h3]
        exact h
      · rw [if_neg h3]
        have hs0 : s.successfulInstalls = 0 := by
          apply h.1
          cases hb : s.installed
          · rfl
          · exact absurd hb h3
        rcases he : env.installErr with _ | n
        · exact ⟨fun hc => absurd hc (by simp), fun _ => by rw [hs0]⟩
        · exact ⟨fun _ => hs0, fun hc => by
            have : s.installed = true := hc
            exact absurd this h3⟩

theorem foldInstall_inv (callers : List (Bool × InstallEnv)) (s : PwState)
    (h : InstallInv s) : InstallInv (foldInstall callers s) := by
  induction callers generalizing s with
  | nil => exact h
  | cons c rest ih =>
    exact ih (installSection c.1 c.2 s).state (installSection_inv c.1 c.2 s h)

/-- C2 as stated is false on two counts, shown at explicit inputs: a
caller with Install configured acquires the install semaphore even after
installation has completed (the code is lock-then-check, not
check-then-lock-then-check), and when a first install fails the install
runs again for a later caller, so the actual install does not run at most
once per process. -/
theorem installSection_claim_false :
    (IEv.acquireInstallSem
      ∈ (installSection true { semAcquireOk := true, installErr := none }
          { installed := true, installRuns := 1, successfulInstalls := 1 }).evs)
    ∧ (foldInstall
        [(true, { semAcquireOk := true, installErr := some 3 }),
         (true, { semAcquireOk := true, installErr := none })]
        { installed := false, installRuns := 0, successfulInstalls := 0 }).installRuns = 2 := by
  decide

/-- C2 amended: every caller with Install configured acquires the
capacity-1 install lock (releasing it exactly as often), re-checks the
installed flag under the lock and skips the actual install when the flag
is set, leaving the state unchanged; the flag is set only by a successful
install; and over any sequence of callers at most one successful install
occurs in the process. -/
theorem installSection_lock_then_check :
    (∀ (env : InstallEnv) (s : PwState), s.installed = true →
       (installSection true env s).state = s
       ∧ IEv.runInstall ∉ (installSection true env s).evs
       ∧ (env.semAcquireOk = true →
           IEv.acquireInstallSem ∈ (installSection true env s).evs))
    ∧ (∀ (cfg : Bool) (env : InstallEnv) (s : PwState),
        (installSection cfg env s).evs.count IEv.acquireInstallSem
          = (installSection cfg env s).evs.count IEv.releaseInstallSem)
    ∧ (∀ (cfg : Bool) (env : InstallEnv) (s : PwState),
        (installSection cfg env s).state.installed = true →
        s.installed = true ∨ env.installErr = none)
    ∧ (∀ callers : List (Bool × InstallEnv),
        (foldInstall callers
          { installed := false, installRuns := 0, successfulInstalls := 0 }).successfulInstalls ≤ 1) := by
  refine ⟨?_, ?_, ?_, ?_⟩
  · intro env s h
    unfold installSection
    by_cases h2 : env.semAcquireOk = false
    · rw [if_neg (by simp), if_pos h2]
      refine ⟨rfl, by simp, ?_⟩
      intro hc
      rw [hc] at h2
      exact Bool.noConfusion h2
    · rw [if_neg (by simp), if_neg h2, if_pos h]
      exact ⟨rfl, by simp, fun _ => by simp⟩
  · intro cfg env s
    unfold installSection
    by_cases h1 : cfg = false
    · rw [if_pos h1]
      rfl
    · rw [if_neg h1]
      by_cases h2 : env.semAcquireOk = false
      · rw [if_pos h2]
        rfl
      · rw [if_neg h2]
        by_cases h3 : s.installed = true
        · rw [if_pos h3]
          rfl
        · rw [if_neg h3]
          rcases he : env.installErr with _ | n <;> rfl
  · intro cfg env s hset
    unfold installSection at hset
    by_cases h1 : cfg = false
    · rw [if_pos h1] at hset
      exact Or.inl hset
    · rw [if_neg h1] at hset
      by_cases h2 : env.semAcquireOk = false
      · rw [if_pos h2] at hset
        exact Or.inl hset
      · rw [if_neg h2] at hset
        by_cases h3 : s.installed = true
        · exact Or.inl h3
        · rw [if_neg h3] at hset
          rcases he : env.installErr with _ | n
          · exact Or.inr rfl
          · rw [he] at hset
            exact Or.inl hset
  · intro callers
    have h := foldInstall_inv callers
      { installed := false, installRuns := 0, successfulInstalls := 0 }
      ⟨fun _ => rfl, fun hc => by cases hc⟩
    cases hb : (foldInstall callers
        { installed := false, installRuns := 0, successfulInstalls := 0 }).installed
    · rw [h.1 hb]
      omega
    · rw [h.2 hb]

/-- Witness for C2 amended: a post-installation caller leaves the state
unchanged, and over a concrete three-caller sequence the success counter
stays at one. -/
theorem installSection_lock_then_check_witness :
    (installSection true { semAcquireOk := true, installErr := some 7 }
        { installed := true, installRuns := 2, successfulInstalls := 1 }).state
      = { installed := true, installRuns := 2, successfulInstalls := 1 }
    ∧ (foldInstall
        [(true, { semAcquireOk := true, installErr := some 3 }),
         (true, { semAcquireOk := true, installErr := none }),
         (true, { semAcquireOk := true, installErr := none })]
        { installed := false, installRuns := 0, successfulInstalls := 0 }).successfulInstalls ≤ 1 :=
  ⟨(installSection_lock_then_check.1
      { semAcquireOk := true, installErr := some 7 }
      { installed := true, installRuns := 2, successfulInstalls := 1 } rfl).1,
   installSection_lock_then_check.2.2.2 _⟩

/-- Oracle of one getFromPlaywright run: instance-pool availability, the
install-section outcomes, the result of each step of the browser
sequence, and whether the background unit finishes before the deadline. -/
structure PwOracle where
  limiterExists : Bool
  limiterFreeAt : Option Nat
  installEnv : InstallEnv
  runErr : Option Nat
  launchErr : Option Nat
  newPageErr : Option Nat
  stealthInjectErr : Option Nat
  addInitScriptErr : Option Nat
  gotoErr : Option Nat
  evalErr : Option Nat
  contentResult : Except Nat String
  finishesBeforeDeadline : Bool

/-- Outcome of the background goroutine of getFromPlaywright: the final
content and outer err variables the select reads, the dead shadowed err
variable introduced at the playwright.Run line, the install state and the
lock events. -/
structure GoOut where
  content : String
  errOuter : Option PwErr
  errShadow : Option PwErr
  state : PwState
  evs : List IEv
deriving DecidableEq, Repr

/-- Translation of the goroutine body of getFromPlaywright (part_001
lines 48 to 203). The statement of line 77, pw, err := playwright.Run,
declares a new err that shadows the outer one for the whole rest of the
goroutine, so every later failure — Run, Launch, nil driver, NewPage,
stealth injection, AddInitScript, Goto, Evaluate, Content — is recorded
only in the shadowed variable and the outer err the select returns keeps
whatever the install section left in it. -/
def pwGoroutine (cfg : PlaywrightConfig) (o : PwOracle) (s : PwState) : GoOut :=
  let ins := installSection cfg.install o.installEnv s
  if ins.aborted then
    { content := "", errOuter := ins.errOuter, errShadow := none
      state := ins.state, evs := ins.evs }
  else
    match o.runErr with
    | some n =>
      { content := "", errOuter := ins.errOuter, errShadow := some (PwErr.runE n)
        state := ins.state, evs := ins.evs }
    | none =>
      match cfg.browser, o.launchErr with
      | BrowserKind.other, _ =>
        { content := "", errOuter := ins.errOuter, errShadow := some PwErr.noDriver
          state := ins.state, evs := ins.evs }
      | _, some n =>
        { content := "", errOuter := ins.errOuter, errShadow := some (PwErr.launchE n)
          state := ins.state, evs := ins.evs }
      | _, none =>
        match o.newPageErr with
        | some n =>
          { content := "", errOuter := ins.errOuter, errShadow := some (PwErr.pageE n)
            state := ins.state, evs := ins.evs }
        | none =>
          match (if cfg.stealth then
                   match o.stealthInjectErr with
                   | some n => some (PwErr.stealthE n)
                   | none =>
                     match o.addInitScriptErr with
                     | some n => some (PwErr.stealthE n)
                     | none => none
                 else none) with
          | some e =>
            { content := "", errOuter := ins.errOuter, errShadow := some e
              state := ins.state, evs := ins.evs }
          | none =>
            match o.gotoErr with
            | some n =>
              { content := "", errOuter := ins.errOuter, errShadow := some (PwErr.gotoE n)
                state := ins.state, evs := ins.evs }
            | none =>
              match (if cfg.preRunScript ≠ "" then o.evalErr else none) with
              | some n =>
                { content := "", errOuter := ins.errOuter, errShadow := some (PwErr.evalE n)
                  state := ins.state, evs := ins.evs }
              | none =>
                match o.contentResult with
                | Except.error n =>
                  { content := "", errOuter := ins.errOuter
                    errShadow := some (PwErr.contentE n)
                    state := ins.state, evs := ins.evs }
                | Except.ok c =>
                  { content := c, errOuter := ins.errOuter, errShadow := none
                    state := ins.state, evs := ins.evs }

/-- Translation of getFromPlaywright (part_001 lines 25 to 211):
instance-pool acquire on the package background context, then the race
between the background goroutine and the deadline context. When the
goroutine finishes first the function returns the content bytes and the
outer err; when the deadline wins it returns nil bytes and the context
error, leaving the background unit to finish on its own. none models the
call never returning because the instance-pool acquire blocks forever.
The returned state is the process state once the background unit ran. -/
def pwGet (cfg : PlaywrightConfig) (o : PwOracle) (s : PwState) :
    Option ((Option String × Option PwErr) × PwState) :=
  if o.limiterExists then
    match semAcquire backgroundCtx o.limiterFreeAt with
    | AcqOutcome.blocked => none
    | AcqOutcome.canceled => some ((none, some PwErr.ctxDone), s)
    | AcqOutcome.granted =>
      if o.finishesBeforeDeadline then
        some ((some (pwGoroutine cfg o s).content, (pwGoroutine cfg o s).errOuter),
          (pwGoroutine cfg o s).state)
      else some ((none, some PwErr.ctxDone), (pwGoroutine cfg o s).state)
  else
    if o.finishesBeforeDeadline then
      some ((some (pwGoroutine cfg o s).content, (pwGoroutine cfg o s).errOuter),
        (pwGoroutine cfg o s).state)
    else some ((none, some PwErr.ctxDone), (pwGoroutine cfg o s).state)

/-- Config fixture of C3: no install, a browser kind matching none of the
three engines, no stealth, no script. -/
def cfgC3 : PlaywrightConfig :=
  { install := false, browser := BrowserKind.other, stealth := false
    timeout := 0, wait := 0, preRunScript := "" }

/-- Oracle fixture of C3: no instance limiter, every modelled external
step succeeding, the background unit finishing before the deadline. -/
def oC3 : PwOracle :=
  { limiterExists := false, limiterFreeAt := some 0
    installEnv := { semAcquireOk := true, installErr := none }
    runErr := none, launchErr := none, newPageErr := none
    stealthInjectErr := none, addInitScriptErr := none
    gotoErr := none, evalErr := none
    contentResult := Except.ok ("page")
    finishesBeforeDeadline := true }

/-- C3 fails on the code and the code contradicts its own error handling:
at this input the browser-launch step of the sequence fails (the
configured browser matches no engine, so the goroutine assigns the
empty-playwright-driver error), yet the caller receives empty content
with a nil error, because the error lands in the err shadowed at the
playwright.Run line while the function returns the outer err. -/
theorem getFromPlaywright_shadowed_error_eval :
    pwGet cfgC3 oC3 { installed := false, installRuns := 0, successfulInstalls := 0 }
      = some ((some (""), none),
          { installed := false, installRuns := 0, successfulInstalls := 0 })
    ∧ (pwGoroutine cfgC3 oC3
        { installed := false, installRuns := 0, successfulInstalls := 0 }).errShadow
      = some PwErr.noDriver := by
  exact ⟨rfl, rfl⟩

deriving instance DecidableEq for Except

/-- Modelled from the spec: pkg/references is not under src/ (only its
test caller is). State of one named reference per section 5 of the spec:
Unresolved, Resolving (the single in-flight resolver execution), or
Resolved with the memoized outcome — value or error — kept for the
remaining process lifetime. Payloads are abstract Nats. -/
inductive RefState where
  | unresolved : RefState
  | resolving : RefState
  | resolved : Except Nat Nat → RefState
deriving DecidableEq, Repr

/-- Scheduler steps of the registry: a caller invokes resolve for a name,
the in-flight resolver finishes with its outcome, a waiting caller reads
a resolved outcome. Caller ids are Nats. -/
inductive RegStep where
  | call : Nat → String → RegStep
  | fetchEnd : String → Except Nat Nat → RegStep
  | retWait : Nat → String → RegStep
deriving DecidableEq, Repr

/-- Registry state: the per-name reference state, the ghost count of
resolver executions per name, and the log of outcomes returned to
callers. -/
structure RegState where
  refs : String → RefState
  fetchCount : String → Nat
  returns : List (Nat × String × Except Nat Nat)

/-- Pointwise update of a name-indexed map. -/
def upd {α : Type} (f : String → α) (n : String) (a : α) : String → α :=
  fun m => if m = n then a else f m

theorem upd_same {α : Type} (f : String → α) (n : String) (a : α) :
    upd f n a n = a := by
  simp [upd]

theorem upd_other {α : Type} (f : String → α) (n m : String) (a : α)
    (h : m ≠ n) : upd f n a m = f m := by
  simp [upd, h]

/-- Modelled from the spec: one interleaving step of the single-flight,
memoizing resolver of section 4.6. The first resolve call on an
unresolved name moves it to Resolving and starts the unique underlying
fetch+extract; a call on a resolving name joins the waiters with no
second fetch; a call on a resolved name returns the memoized outcome
immediately. fetchEnd is enabled only for a resolving name and installs
the memoized outcome exactly once — success or failure alike. retWait
hands the memoized outcome to a waiting caller. A disabled step leaves
the state unchanged. -/
def regStep (s : RegState) (st : RegStep) : RegState :=
  match st with
  | RegStep.call i n =>
    match s.refs n with
    | RefState.unresolved =>
      { refs := upd s.refs n RefState.resolving
        fetchCount := upd s.fetchCount n (s.fetchCount n + 1)
        returns := s.returns }
    | RefState.resolving => s
    | RefState.resolved r => { s with returns := (i, n, r) :: s.returns }
  | RegStep.fetchEnd n r =>
    match s.refs n with
    | RefState.resolving => { s with refs := upd s.refs n (RefState.resolved r) }
    | _ => s
  | RegStep.retWait i n =>
    match s.refs n with
    | RefState.resolved r => { s with returns := (i, n, r) :: s.returns }
    | _ => s

/-- Initial registry state: every name unresolved, no fetches, no
returns. -/
def regInit : RegState :=
  { refs := fun _ => RefState.unresolved
    fetchCount := fun _ => 0
    returns := [] }

/-- Run of the registry over a step sequence. -/
def regRun (steps : List RegStep) : RegState :=
  steps.foldl regStep regInit

/-- Registry invariant: the fetch count tracks whether a name has left
the unresolved state, and every logged return carries exactly the
memoized outcome of its name. -/
def RegInv (s : RegState) : Prop :=
  ∀ n : String,
    (s.refs n = RefState.unresolved → s.fetchCount n = 0)
    ∧ (s.refs n ≠ RefState.unresolved → s.fetchCount n = 1)
    ∧ (∀ i r, (i, n, r) ∈ s.returns → s.refs n = RefState.resolved r)

theorem regInit_inv : RegInv regInit := by
  intro n
  refine ⟨fun _ => rfl, fun hc => absurd rfl hc, ?_⟩
  intro i r hmem
  simp [regInit] at hmem

theorem regStep_inv (s : RegState) (st : RegStep) (h : RegInv s) :
    RegInv (regStep s st) := by
  cases st with
  | call i m =>
    rcases hrm : s.refs m with _ | _ | r0
    · intro n
      obtain ⟨h1, h2, h3⟩ := h n
      simp only [regStep, hrm]
      by_cases hnm : n = m
      · subst hnm
        refine ⟨?_, ?_, ?_⟩
        · intro hc
          rw [upd_same] at hc
          cases hc
        · intro _
          rw [upd_same, h1 hrm]
        · intro i2 r hmem
          have := h3 i2 r hmem
          rw [hrm] at this
          cases this
      · refine ⟨?_, ?_, ?_⟩
        · intro hc
          rw [upd_other _ _ _ _ hnm] at hc
          rw [upd_other _ _ _ _ hnm]
          exact h1 hc
        · intro hc
          rw [upd_other _ _ _ _ hnm] at hc
          rw [upd_other _ _ _ _ hnm]
          exact h2 hc
        · intro i2 r hmem
          rw [upd_other _ _ _ _ hnm]
          exact h3 i2 r hmem
    · intro n
      simp only [regStep, hrm]
      exact h n
    · intro n
      obtain ⟨h1, h2, h3⟩ := h n
      simp only [regStep, hrm]
      refine ⟨h1, h2, ?_⟩
      intro i2 r hmem
      rw [List.mem_cons] at hmem
      rcases hmem with he | hm
      · rw [Prod.mk.injEq] at he
        obtain ⟨_, he2⟩ := he
        rw [Prod.mk.injEq] at he2
        obtain ⟨hn2, hr2⟩ := he2
        subst hn2
        rw [hrm, hr2]
      · exact h3 i2 r hm
  | fetchEnd m r1 =>
    rcases hrm : s.refs m with _ | _ | r0
    · intro n
      simp only [regStep, hrm]
      exact h n
    · intro n
      obtain ⟨h1, h2, h3⟩ := h n
      simp only [regStep, hrm]
      by_cases hnm : n = m
      · subst hnm
        refine ⟨?_, ?_, ?_⟩
        · intro hc
          rw [upd_same] at hc
          cases hc
        · intro _
          exact h2 (by rw [hrm]; intro hc; cases hc)
        · intro i2 r hmem
          have := h3 i2 r hmem
          rw [hrm] at this
          cases this
      · refine ⟨?_, ?_, ?_⟩
        · intro hc
          rw [upd_other _ _ _ _ hnm] at hc
          exact h1 hc
        · intro hc
          rw [upd_other _ _ _ _ hnm] at hc
          exact h2 hc
        · intro i2 r hmem
          rw [upd_other _ _ _ _ hnm]
          exact h3 i2 r hmem
    · intro n
      simp only [regStep, hrm]
      exact h n
  | retWait i m =>
    rcases hrm : s.refs m with _ | _ | r0
    · intro n
      simp only [regStep, hrm]
      exact h n
    · intro n
      simp only [regStep, hrm]
      exact h n
    · intro n
      obtain ⟨h1, h2, h3⟩ := h n
      simp only [regStep, hrm]
      refine ⟨h1, h2, ?_⟩
      intro i2 r hmem
      rw [List.mem_cons] at hmem
      rcases hmem with he | hm
      · rw [Prod.mk.injEq] at he
        obtain ⟨_, he2⟩ := he
        rw [Prod.mk.injEq] at he2
        obtain ⟨hn2, hr2⟩ := he2
        subst hn2
        rw [hrm, hr2]
      · exact h3 i2 r hm

theorem regRun_inv (steps : List RegStep) : RegInv (regRun steps) := by
  unfold regRun
  have hgen : ∀ (s : RegState), RegInv s → RegInv (steps.foldl regStep s) := by
    induction steps with
    | nil => exact fun s hs => hs
    | cons st rest ih =>
      intro s hs
      exact ih (regStep s st) (regStep_inv s st hs)
  exact hgen regInit regInit_inv

/-- C1: in every interleaving of resolve calls, resolver completions and
waiter wakeups, the underlying fetch+extract executes at most once per
name, and any two outcomes returned to callers for the same name are
identical — the memoized outcome, success or failure alike, for the
remaining process lifetime. -/
theorem registry_single_flight_memoized (steps : List RegStep) (n : String) :
    (regRun steps).fetchCount n ≤ 1
    ∧ (∀ i1 r1 i2 r2, (i1, n, r1) ∈ (regRun steps).returns →
        (i2, n, r2) ∈ (regRun steps).returns → r1 = r2) := by
  obtain ⟨h1, h2, h3⟩ := regRun_inv steps n
  constructor
  · by_cases hu : (regRun steps).refs n = RefState.unresolved
    · rw [h1 hu]
      omega
    · rw [h2 hu]
  · intro i1 r1 i2 r2 hm1 hm2
    have e1 := h3 i1 r1 hm1
    have e2 := h3 i2 r2 hm2
    rw [e1] at e2
    injection e2

/-- Fixture run for C1: three concurrent callers on one unresolved name,
a single fetch completion, the waiter wakeups, then a late caller. -/
def stepsW : List RegStep :=
  [RegStep.call 1 ("X"), RegStep.call 2 ("X"), RegStep.call 3 ("X"),
   RegStep.fetchEnd ("X") (Except.ok 42),
   RegStep.retWait 1 ("X"), RegStep.retWait 2 ("X"), RegStep.retWait 3 ("X"),
   RegStep.call 4 ("X")]

/-- Witness for C1 at the fixture run: the fetch ran exactly once and two
of the returned outcomes, picked concretely, coincide. -/
theorem registry_single_flight_memoized_witness :
    (regRun stepsW).fetchCount ("X") ≤ 1
    ∧ ((1, ("X"), Except.ok 42) : Nat × String × Except Nat Nat) ∈ (regRun stepsW).returns
    ∧ ((4, ("X"), Except.ok 42) : Nat × String × Except Nat Nat) ∈ (regRun stepsW).returns := by
  refine ⟨(registry_single_flight_memoized stepsW ("X")).1, by decide, by decide⟩

end Fitter
